import Mathlib

set_option maxHeartbeats 1000000
set_option linter.unusedVariables false

/- Shallow embedding of the chess engine in src/main.py (classes Piece and
   ChessBoard).  Python objects are rendered as values: the 8x8 grid maps a
   pair of indices to an optional piece, an attribute assignment on a piece
   object that sits in the grid is rendered as an update of the cell the
   object currently occupies, and a Python exception (IndexError on a raw
   list write, AttributeError on None) is rendered as the value none of an
   Option-typed result. -/

inductive PieceType where
  | king | queen | rook | bishop | knight | pawn
  deriving DecidableEq

inductive PieceColor where
  | white | black
  deriving DecidableEq

/-- Piece.__init__ (src/main.py lines 23-28): type, color, position, has_moved. -/
structure Piece where
  piece_type : PieceType
  color : PieceColor
  position : Int × Int
  has_moved : Bool
  deriving DecidableEq

/-- ChessBoard state (src/main.py lines 46-49): the 8x8 grid and whose turn it is. -/
structure ChessBoard where
  board : Fin 8 → Fin 8 → Option Piece
  current_turn : PieceColor

/-- Python list indexing for a list of length 8: indices 0..7 hit directly,
    indices -8..-1 wrap around, anything else raises IndexError (none). -/
def pyIdx (i : Int) : Option (Fin 8) :=
  if h : 0 ≤ i ∧ i < 8 then some ⟨i.toNat, by omega⟩
  else if h2 : -8 ≤ i ∧ i < 0 then some ⟨(i + 8).toNat, by omega⟩
  else none

/-- Overwrite one grid cell, leaving the rest of the state alone. -/
def ChessBoard.updCell (b : ChessBoard) (i j : Fin 8) (v : Option Piece) : ChessBoard :=
  { b with board := fun i2 j2 => if i2 = i ∧ j2 = j then v else b.board i2 j2 }

/-- ChessBoard.get_piece (src/main.py lines 66-70): bounds-checked read,
    returns None outside 0..7 in either coordinate. -/
def ChessBoard.get_piece (b : ChessBoard) (row col : Int) : Option Piece :=
  if h : 0 ≤ row ∧ row < 8 ∧ 0 ≤ col ∧ col < 8 then
    b.board ⟨row.toNat, by omega⟩ ⟨col.toNat, by omega⟩
  else none

/-- ChessBoard.set_piece (src/main.py lines 72-76): mutates piece.position to
    the raw coordinates, then writes the grid through raw Python indexing;
    an out-of-range write is an IndexError, rendered as none. -/
def ChessBoard.set_piece (b : ChessBoard) (row col : Int) (piece : Option Piece) :
    Option ChessBoard :=
  let piece := piece.map fun p => { p with position := (row, col) }
  match pyIdx row, pyIdx col with
  | some i, some j => some (b.updCell i j piece)
  | _, _ => none

/-- Rendering of the Python statement `obj.has_moved = True` for the piece
    object sitting at cell (row, col): update that cell's occupant in place.
    A no-op on an empty or out-of-range cell (never reached in the source:
    the statement always follows a successful set_piece at the same cell). -/
def ChessBoard.setHasMovedAt (b : ChessBoard) (row col : Int) : ChessBoard :=
  match pyIdx row, pyIdx col with
  | some i, some j => b.updCell i j ((b.board i j).map fun p => { p with has_moved := true })
  | _, _ => b

/-- Rendering of the Python statement `piece.piece_type = PieceType.QUEEN` for
    the piece object sitting at cell (row, col). -/
def ChessBoard.promoteAt (b : ChessBoard) (row col : Int) : ChessBoard :=
  match pyIdx row, pyIdx col with
  | some i, some j =>
      b.updCell i j ((b.board i j).map fun p => { p with piece_type := PieceType.queen })
  | _, _ => b

/-- Python `range lo hi` as a list of Ints (empty when hi ≤ lo). -/
def intRange (lo hi : Int) : List Int :=
  (List.range (hi - lo).toNat).map fun k => lo + (k : Int)

/-- ChessBoard._validate_pawn (src/main.py lines 137-160).  The source reads
    piece.color on the from-square occupant; the none branch would be an
    AttributeError and is unreachable via is_valid_move. -/
def ChessBoard._validate_pawn (b : ChessBoard) (from_pos to_pos : Int × Int) : Bool :=
  let from_row := from_pos.1; let from_col := from_pos.2
  let to_row := to_pos.1; let to_col := to_pos.2
  match b.get_piece from_row from_col with
  | none => false
  | some piece =>
    let direction : Int := if piece.color = PieceColor.white then -1 else 1
    if from_col = to_col ∧ to_row = from_row + direction then
      (b.get_piece to_row to_col).isNone
    else if from_col = to_col ∧
        ((piece.color = PieceColor.white ∧ from_row = 6 ∧ to_row = 4) ∨
         (piece.color = PieceColor.black ∧ from_row = 1 ∧ to_row = 3)) then
      (b.get_piece (from_row + direction) from_col).isNone &&
        (b.get_piece to_row to_col).isNone
    else if (to_col - from_col).natAbs = 1 ∧ to_row = from_row + direction then
      match b.get_piece to_row to_col with
      | none => false
      | some target => target.color ≠ piece.color
    else false

/-- ChessBoard._validate_knight (src/main.py lines 162-165): pure arithmetic,
    no occupancy or range check at all. -/
def ChessBoard._validate_knight (b : ChessBoard) (from_pos to_pos : Int × Int) : Bool :=
  let dr := (to_pos.1 - from_pos.1).natAbs
  let dc := (to_pos.2 - from_pos.2).natAbs
  (dr = 2 ∧ dc = 1) ∨ (dr = 1 ∧ dc = 2)

/-- The while loop of _validate_bishop (src/main.py lines 176-180), walking
    from (r, c) by (row_step, col_step) until (tr, tc) is hit.  The fuel is
    the exact iteration count (tr - fr).natAbs of the source loop whenever the
    guard |tr-fr| = |tc-fc| holds and from differs from to; fuel 0 is reached
    only in the from = to case, where the source loop never terminates and
    which is unreachable through is_valid_move (the same-color target test
    rejects it first). -/
def pathClear (b : ChessBoard) (tr tc row_step col_step : Int) : Int → Int → Nat → Bool
  | _, _, 0 => true
  | r, c, fuel + 1 =>
    if r = tr ∧ c = tc then true
    else if (b.get_piece r c).isSome then false
    else pathClear b tr tc row_step col_step (r + row_step) (c + col_step) fuel

/-- ChessBoard._validate_bishop (src/main.py lines 167-181). -/
def ChessBoard._validate_bishop (b : ChessBoard) (from_pos to_pos : Int × Int) : Bool :=
  let fr := from_pos.1; let fc := from_pos.2
  let tr := to_pos.1; let tc := to_pos.2
  if (tr - fr).natAbs ≠ (tc - fc).natAbs then false
  else
    let row_step : Int := if tr > fr then 1 else -1
    let col_step : Int := if tc > fc then 1 else -1
    pathClear b tr tc row_step col_step (fr + row_step) (fc + col_step) (tr - fr).natAbs

/-- ChessBoard._validate_rook (src/main.py lines 183-197). -/
def ChessBoard._validate_rook (b : ChessBoard) (from_pos to_pos : Int × Int) : Bool :=
  let fr := from_pos.1; let fc := from_pos.2
  let tr := to_pos.1; let tc := to_pos.2
  if fr ≠ tr ∧ fc ≠ tc then false
  else if fr = tr then
    (intRange (min fc tc + 1) (max fc tc)).all fun c => (b.get_piece fr c).isNone
  else
    (intRange (min fr tr + 1) (max fr tr)).all fun r => (b.get_piece r fc).isNone

/-- ChessBoard._validate_bishop or _validate_rook, i.e. _validate_queen
    (src/main.py lines 199-201). -/
def ChessBoard._validate_queen (b : ChessBoard) (from_pos to_pos : Int × Int) : Bool :=
  b._validate_bishop from_pos to_pos || b._validate_rook from_pos to_pos

/-- ChessBoard._validate_king (src/main.py lines 203-224).  The source reads
    piece.has_moved in the castling test; with an empty from-square that is an
    AttributeError, unreachable via is_valid_move, rendered here as false. -/
def ChessBoard._validate_king (b : ChessBoard) (from_pos to_pos : Int × Int) : Bool :=
  let fr := from_pos.1; let fc := from_pos.2
  let tr := to_pos.1; let tc := to_pos.2
  if (tr - fr).natAbs ≤ 1 ∧ (tc - fc).natAbs ≤ 1 then true
  else
    match b.get_piece fr fc with
    | none => false
    | some piece =>
      if piece.has_moved = false ∧ fr = tr ∧ (tc - fc).natAbs = 2 then
        let rook_col : Int := if tc < fc then 0 else 7
        match b.get_piece fr rook_col with
        | none => false
        | some rook =>
          if rook.piece_type ≠ PieceType.rook ∨ rook.has_moved then false
          else (intRange (min fc rook_col + 1) (max fc rook_col)).all
                 fun c => (b.get_piece fr c).isNone
      else false

/-- ChessBoard.is_valid_move (src/main.py lines 113-135): reject an empty
    from-square and a same-color target, then dispatch on the piece type. -/
def ChessBoard.is_valid_move (b : ChessBoard) (from_pos to_pos : Int × Int) : Bool :=
  match b.get_piece from_pos.1 from_pos.2, b.get_piece to_pos.1 to_pos.2 with
  | none, _ => false
  | some piece, target =>
    let sameColorTarget : Bool := match target with
      | some t => t.color = piece.color
      | none => false
    if sameColorTarget then false
    else
      match piece.piece_type with
      | PieceType.pawn => b._validate_pawn from_pos to_pos
      | PieceType.knight => b._validate_knight from_pos to_pos
      | PieceType.bishop => b._validate_bishop from_pos to_pos
      | PieceType.rook => b._validate_rook from_pos to_pos
      | PieceType.queen => b._validate_queen from_pos to_pos
      | PieceType.king => b._validate_king from_pos to_pos

/-- ChessBoard.move_piece (src/main.py lines 78-111).  The Bool is the
    source's return value; none renders an uncaught Python exception
    (IndexError from a raw out-of-range write in set_piece, or AttributeError
    from `rook.has_moved = True` when the castling corner is empty). -/
def ChessBoard.move_piece (b : ChessBoard) (from_pos to_pos : Int × Int) :
    Option (Bool × ChessBoard) :=
  let from_row := from_pos.1; let from_col := from_pos.2
  let to_row := to_pos.1; let to_col := to_pos.2
  match b.get_piece from_row from_col with
  | none => some (false, b)
  | some piece =>
    if piece.color ≠ b.current_turn then some (false, b)
    else if ¬ b.is_valid_move from_pos to_pos then some (false, b)
    else
      let afterCastle : Option ChessBoard :=
        if piece.piece_type = PieceType.king ∧ (from_col - to_col).natAbs = 2 then
          let rook_col : Int := if to_col = 2 then 0 else 7
          let rook_target_col : Int := if to_col = 2 then 3 else 5
          let rook := b.get_piece from_row rook_col
          match b.set_piece from_row rook_col none with
          | none => none
          | some b1 =>
            match b1.set_piece from_row rook_target_col rook with
            | none => none
            | some b2 =>
              match rook with
              | none => none
              | some _ => some (b2.setHasMovedAt from_row rook_target_col)
        else some b
      match afterCastle with
      | none => none
      | some b3 =>
        match b3.set_piece from_row from_col none with
        | none => none
        | some b4 =>
          match b4.set_piece to_row to_col (some piece) with
          | none => none
          | some b5 =>
            let b6 := b5.setHasMovedAt to_row to_col
            let b7 := if piece.piece_type = PieceType.pawn ∧ (to_row = 0 ∨ to_row = 7)
                      then b6.promoteAt to_row to_col else b6
            some (true, { b7 with current_turn :=
              if b.current_turn = PieceColor.white then PieceColor.black
              else PieceColor.white })

/-- The back-rank piece order of ChessBoard.initialize_board
    (src/main.py lines 58-61). -/
def back_row (c : Fin 8) : PieceType :=
  if c.val = 0 ∨ c.val = 7 then PieceType.rook
  else if c.val = 1 ∨ c.val = 6 then PieceType.knight
  else if c.val = 2 ∨ c.val = 5 then PieceType.bishop
  else if c.val = 3 then PieceType.queen
  else PieceType.king

/-- The board produced by ChessBoard.__init__ / initialize_board
    (src/main.py lines 46-64): black on rows 0-1, white on rows 6-7,
    White to move. -/
def initialBoard : ChessBoard :=
  { board := fun i j =>
      if i.val = 1 then some ⟨PieceType.pawn, PieceColor.black, (1, (j.val : Int)), false⟩
      else if i.val = 6 then some ⟨PieceType.pawn, PieceColor.white, (6, (j.val : Int)), false⟩
      else if i.val = 0 then some ⟨back_row j, PieceColor.black, (0, (j.val : Int)), false⟩
      else if i.val = 7 then some ⟨back_row j, PieceColor.white, (7, (j.val : Int)), false⟩
      else none,
    current_turn := PieceColor.white }

/-- All 64 board squares, row-major, as raw coordinates. -/
def allSquares : List (Int × Int) :=
  (List.range 8).flatMap fun r => (List.range 8).map fun c => ((r : Int), (c : Int))

/-- Modelled from the spec: the square of side's king, needed by the check
    test of spec section 4.4; none when that side has no king on the board. -/
def ChessBoard.kingSquare (b : ChessBoard) (side : PieceColor) : Option (Int × Int) :=
  allSquares.find? fun sq =>
    match b.get_piece sq.1 sq.2 with
    | some p => p.piece_type = PieceType.king && p.color = side
    | none => false

/-- Modelled from the spec: `isInCheck(side)` of spec section 4.4 — true iff
    some opposing piece has a legal capturing move onto side's king square.
    The source calls ChessBoard.is_checkmate / is_stalemate /
    get_all_valid_moves (src/main.py lines 333, 341, 345) but src/main.py
    never defines them, so this layer is built from the spec's words on top
    of the source's is_valid_move.  A side with no king is not in check. -/
def ChessBoard.is_in_check (b : ChessBoard) (side : PieceColor) : Bool :=
  match b.kingSquare side with
  | none => false
  | some ksq =>
    allSquares.any fun sq =>
      match b.get_piece sq.1 sq.2 with
      | some p => (if p.color = side then false else b.is_valid_move sq ksq)
      | none => false

/-- Modelled from the spec: hypothetically apply a move for `side` (spec
    section 4.4's filter on allLegalMoves), reusing the source's move
    execution with the turn set to the mover; none when the move is not
    executed (rejected or the execution raises). -/
def ChessBoard.hypApply (b : ChessBoard) (side : PieceColor) (from_pos to_pos : Int × Int) :
    Option ChessBoard :=
  match ({ b with current_turn := side } : ChessBoard).move_piece from_pos to_pos with
  | some (true, b2) => some b2
  | _ => none

/-- Modelled from the spec: `allLegalMoves(side)` of spec section 4.4 — every
    pair of board squares whose from-square holds a piece of `side`, passing
    is_valid_move, and filtered to exclude moves that leave side's own king in
    check after being hypothetically applied. -/
def ChessBoard.get_all_valid_moves (b : ChessBoard) (side : PieceColor) :
    List ((Int × Int) × (Int × Int)) :=
  (allSquares.filter fun fp =>
      match b.get_piece fp.1 fp.2 with
      | some p => p.color = side
      | none => false).flatMap fun fp =>
    (allSquares.filter fun tp =>
        b.is_valid_move fp tp &&
          (match b.hypApply side fp tp with
           | some b2 => ! b2.is_in_check side
           | none => false)).map fun tp => (fp, tp)

/-- Modelled from the spec: `isCheckmate(side)` of spec section 4.4 — in
    check with no legal moves. -/
def ChessBoard.is_checkmate (b : ChessBoard) (side : PieceColor) : Bool :=
  b.is_in_check side && (b.get_all_valid_moves side).isEmpty

/-- A corner mate: White king on (0,0), Black queen on (1,1) defended by the
    Black king on (2,2); White to move. -/
def mateBoard : ChessBoard :=
  { board := fun i j =>
      if i = 0 ∧ j = 0 then some ⟨PieceType.king, PieceColor.white, (0, 0), false⟩
      else if i = 1 ∧ j = 1 then some ⟨PieceType.queen, PieceColor.black, (1, 1), false⟩
      else if i = 2 ∧ j = 2 then some ⟨PieceType.king, PieceColor.black, (2, 2), false⟩
      else none,
    current_turn := PieceColor.white }

/-- The marching direction of a pawn (src/main.py line 142): -1 for White
    (toward row 0), +1 for Black. -/
def pawnDir (c : PieceColor) : Int := if c = PieceColor.white then -1 else 1

/-- The value carried by the moved piece on its destination square after
    move_piece: position updated by set_piece, has_moved set, and the kind
    promoted to Queen exactly under the source's promotion condition
    (src/main.py lines 103-107). -/
def finalPieceVal (piece : Piece) (tp : Int × Int) : Piece :=
  { piece with
    position := (tp.1, tp.2),
    has_moved := true,
    piece_type := if piece.piece_type = PieceType.pawn ∧ (tp.1 = 0 ∨ tp.1 = 7)
                  then PieceType.queen else piece.piece_type }

/-- The value a castling-relocated rook carries after move_piece: position
    updated by set_piece and has_moved set (src/main.py lines 95-98). -/
def movedRookVal (rk : Piece) (row col : Int) : Piece :=
  { rk with position := (row, col), has_moved := true }

/- State-threaded translation of the legality checker: the same statements of
   src/main.py lines 113-224 with the board state passed along explicitly, so
   that purity (no board mutation during a legality query) is a theorem about
   the final state rather than a typing convention. -/

def get_pieceS (b : ChessBoard) (row col : Int) : Option Piece × ChessBoard :=
  (b.get_piece row col, b)

def _validate_pawnS (b : ChessBoard) (from_pos to_pos : Int × Int) : Bool × ChessBoard :=
  let pb := get_pieceS b from_pos.1 from_pos.2
  match pb.1 with
  | none => (false, pb.2)
  | some piece =>
    let b := pb.2
    let direction : Int := if piece.color = PieceColor.white then -1 else 1
    if from_pos.2 = to_pos.2 ∧ to_pos.1 = from_pos.1 + direction then
      let tb := get_pieceS b to_pos.1 to_pos.2
      (tb.1.isNone, tb.2)
    else if from_pos.2 = to_pos.2 ∧
        ((piece.color = PieceColor.white ∧ from_pos.1 = 6 ∧ to_pos.1 = 4) ∨
         (piece.color = PieceColor.black ∧ from_pos.1 = 1 ∧ to_pos.1 = 3)) then
      let mb := get_pieceS b (from_pos.1 + direction) from_pos.2
      let tb := get_pieceS mb.2 to_pos.1 to_pos.2
      (mb.1.isNone && tb.1.isNone, tb.2)
    else if (to_pos.2 - from_pos.2).natAbs = 1 ∧ to_pos.1 = from_pos.1 + direction then
      let tb := get_pieceS b to_pos.1 to_pos.2
      match tb.1 with
      | none => (false, tb.2)
      | some target => (target.color ≠ piece.color, tb.2)
    else (false, b)

def _validate_knightS (b : ChessBoard) (from_pos to_pos : Int × Int) : Bool × ChessBoard :=
  let dr := (to_pos.1 - from_pos.1).natAbs
  let dc := (to_pos.2 - from_pos.2).natAbs
  ((dr = 2 ∧ dc = 1) ∨ (dr = 1 ∧ dc = 2), b)

def pathClearS (tr tc row_step col_step : Int) :
    ChessBoard → Int → Int → Nat → Bool × ChessBoard
  | b, _, _, 0 => (true, b)
  | b, r, c, fuel + 1 =>
    if r = tr ∧ c = tc then (true, b)
    else
      let qb := get_pieceS b r c
      if qb.1.isSome then (false, qb.2)
      else pathClearS tr tc row_step col_step qb.2 (r + row_step) (c + col_step) fuel

def _validate_bishopS (b : ChessBoard) (from_pos to_pos : Int × Int) : Bool × ChessBoard :=
  let fr := from_pos.1; let fc := from_pos.2
  let tr := to_pos.1; let tc := to_pos.2
  if (tr - fr).natAbs ≠ (tc - fc).natAbs then (false, b)
  else
    let row_step : Int := if tr > fr then 1 else -1
    let col_step : Int := if tc > fc then 1 else -1
    pathClearS tr tc row_step col_step b (fr + row_step) (fc + col_step) (tr - fr).natAbs

def rowScanS (fr : Int) : ChessBoard → List Int → Bool × ChessBoard
  | b, [] => (true, b)
  | b, c :: rest =>
    let qb := get_pieceS b fr c
    if qb.1.isSome then (false, qb.2) else rowScanS fr qb.2 rest

def colScanS (fc : Int) : ChessBoard → List Int → Bool × ChessBoard
  | b, [] => (true, b)
  | b, r :: rest =>
    let qb := get_pieceS b r fc
    if qb.1.isSome then (false, qb.2) else colScanS fc qb.2 rest

def _validate_rookS (b : ChessBoard) (from_pos to_pos : Int × Int) : Bool × ChessBoard :=
  let fr := from_pos.1; let fc := from_pos.2
  let tr := to_pos.1; let tc := to_pos.2
  if fr ≠ tr ∧ fc ≠ tc then (false, b)
  else if fr = tr then rowScanS fr b (intRange (min fc tc + 1) (max fc tc))
  else colScanS fc b (intRange (min fr tr + 1) (max fr tr))

def _validate_queenS (b : ChessBoard) (from_pos to_pos : Int × Int) : Bool × ChessBoard :=
  let rb := _validate_bishopS b from_pos to_pos
  if rb.1 then (true, rb.2) else _validate_rookS rb.2 from_pos to_pos

def _validate_kingS (b : ChessBoard) (from_pos to_pos : Int × Int) : Bool × ChessBoard :=
  let fr := from_pos.1; let fc := from_pos.2
  let tr := to_pos.1; let tc := to_pos.2
  let pb := get_pieceS b fr fc
  if (tr - fr).natAbs ≤ 1 ∧ (tc - fc).natAbs ≤ 1 then (true, pb.2)
  else
    match pb.1 with
    | none => (false, pb.2)
    | some piece =>
      if piece.has_moved = false ∧ fr = tr ∧ (tc - fc).natAbs = 2 then
        let rook_col : Int := if tc < fc then 0 else 7
        let rb := get_pieceS pb.2 fr rook_col
        match rb.1 with
        | none => (false, rb.2)
        | some rook =>
          if rook.piece_type ≠ PieceType.rook ∨ rook.has_moved then (false, rb.2)
          else rowScanS fr rb.2 (intRange (min fc rook_col + 1) (max fc rook_col))
      else (false, pb.2)

/-- ChessBoard.is_valid_move with the board state threaded through every
    read, mirroring src/main.py lines 113-135 statement by statement. -/
def is_valid_moveS (b : ChessBoard) (from_pos to_pos : Int × Int) : Bool × ChessBoard :=
  let pb := get_pieceS b from_pos.1 from_pos.2
  let tb := get_pieceS pb.2 to_pos.1 to_pos.2
  match pb.1 with
  | none => (false, tb.2)
  | some piece =>
    let sameColorTarget : Bool := match tb.1 with
      | some t => t.color = piece.color
      | none => false
    if sameColorTarget then (false, tb.2)
    else
      match piece.piece_type with
      | PieceType.pawn => _validate_pawnS tb.2 from_pos to_pos
      | PieceType.knight => _validate_knightS tb.2 from_pos to_pos
      | PieceType.bishop => _validate_bishopS tb.2 from_pos to_pos
      | PieceType.rook => _validate_rookS tb.2 from_pos to_pos
      | PieceType.queen => _validate_queenS tb.2 from_pos to_pos
      | PieceType.king => _validate_kingS tb.2 from_pos to_pos

/-- Run a list of moves through move_piece, accepted or rejected alike;
    none as soon as one of them raises. -/
def runMoves : ChessBoard → List ((Int × Int) × (Int × Int)) → Option ChessBoard
  | b, [] => some b
  | b, m :: ms =>
    match b.move_piece m.1 m.2 with
    | some (_, b2) => runMoves b2 ms
    | none => none

/-- The board a list of moves ends in (the start board if the run raises). -/
def runBoard (b : ChessBoard) (ms : List ((Int × Int) × (Int × Int))) : ChessBoard :=
  (runMoves b ms).getD b

/-- True exactly when move_piece executes the move and returns True. -/
def ChessBoard.moveAccepted (b : ChessBoard) (from_pos to_pos : Int × Int) : Bool :=
  match b.move_piece from_pos to_pos with
  | some (true, _) => true
  | _ => false

/-- The board move_piece leaves behind (the unchanged board when it raises,
    matching the caller observing the state after catching the crash). -/
def ChessBoard.boardAfter (b : ChessBoard) (from_pos to_pos : Int × Int) : ChessBoard :=
  match b.move_piece from_pos to_pos with
  | some (_, b2) => b2
  | none => b

/-- The board states a game session can be in: the initial setup and
    everything move_piece's accepted moves produce from it. -/
inductive Reachable : ChessBoard → Prop
  | init : Reachable initialBoard
  | step {b b2 : ChessBoard} {fp tp : Int × Int} :
      Reachable b → b.move_piece fp tp = some (true, b2) → Reachable b2

/-- No pawn sits on either back rank (grid rows 0 and 7). -/
def noPawnEdge (b : ChessBoard) : Prop :=
  ∀ i j : Fin 8, (i.val = 0 ∨ i.val = 7) →
    (b.board i j).map Piece.piece_type ≠ some PieceType.pawn

/-- Counterexample position for the castling claim: White king on (7,6),
    never moved; White rooks on (7,0) (never moved) and (7,7) (already
    moved); nothing else on row 7; White to move.  The king's move to (7,4)
    goes toward the queenside, and validation checks the queenside rook at
    column 0, yet execution keys the rook relocation on `to_col == 2` and so
    moves the kingside rook from (7,7) to (7,5). -/
def cb4 : ChessBoard :=
  { board := fun i j =>
      if i = 7 ∧ j = 6 then some ⟨PieceType.king, PieceColor.white, (7, 6), false⟩
      else if i = 7 ∧ j = 0 then some ⟨PieceType.rook, PieceColor.white, (7, 0), false⟩
      else if i = 7 ∧ j = 7 then some ⟨PieceType.rook, PieceColor.white, (7, 7), true⟩
      else none,
    current_turn := PieceColor.white }

/-- A legal White kingside castling position: the standard start with the
    (7,5) bishop and (7,6) knight removed. -/
def castleBoard : ChessBoard :=
  { board := fun i j =>
      if i.val = 7 ∧ (j.val = 5 ∨ j.val = 6) then none else initialBoard.board i j,
    current_turn := PieceColor.white }

/-- A one-move promotion position: a White pawn on (1,0), White to move. -/
def promoBoard : ChessBoard :=
  { board := fun i j =>
      if i = 1 ∧ j = 0 then some ⟨PieceType.pawn, PieceColor.white, (1, 0), false⟩
      else if i = 7 ∧ j = 4 then some ⟨PieceType.king, PieceColor.white, (7, 4), false⟩
      else if i = 0 ∧ j = 7 then some ⟨PieceType.king, PieceColor.black, (0, 7), false⟩
      else none,
    current_turn := PieceColor.white }

theorem pyIdx_of_inRange {i : Int} (h0 : 0 ≤ i) (h8 : i < 8) :
    pyIdx i = some ⟨i.toNat, by omega⟩ := by
  unfold pyIdx
  rw [dif_pos ⟨h0, h8⟩]

theorem pyIdx_isSome_iff {i : Int} : (pyIdx i).isSome = true ↔ -8 ≤ i ∧ i < 8 := by
  unfold pyIdx
  split
  · simp; omega
  · split
    · simp; omega
    · simp; omega

theorem pyIdx_val {i : Int} {f : Fin 8} (h : pyIdx i = some f) :
    i = (f.val : Int) ∨ i = (f.val : Int) - 8 := by
  unfold pyIdx at h
  split at h
  · rename_i hb
    left
    cases h
    simp
    omega
  · split at h
    · rename_i hb
      right
      cases h
      simp
      omega
    · cases h

theorem get_piece_eq_board (b : ChessBoard) {r c : Int}
    (h0 : 0 ≤ r) (h8 : r < 8) (k0 : 0 ≤ c) (k8 : c < 8) :
    b.get_piece r c = b.board ⟨r.toNat, by omega⟩ ⟨c.toNat, by omega⟩ := by
  unfold ChessBoard.get_piece
  rw [dif_pos ⟨h0, h8, k0, k8⟩]

theorem get_piece_fin (b : ChessBoard) (i j : Fin 8) :
    b.get_piece (i.val : Int) (j.val : Int) = b.board i j := by
  rw [get_piece_eq_board b (by omega) (by omega) (by omega) (by omega)]
  congr 1

theorem get_piece_oob (b : ChessBoard) {r c : Int}
    (h : ¬(0 ≤ r ∧ r < 8 ∧ 0 ≤ c ∧ c < 8)) : b.get_piece r c = none := by
  unfold ChessBoard.get_piece
  rw [dif_neg h]

theorem get_piece_some_bounds {b : ChessBoard} {r c : Int} {p : Piece}
    (h : b.get_piece r c = some p) : 0 ≤ r ∧ r < 8 ∧ 0 ≤ c ∧ c < 8 := by
  by_contra hb
  rw [get_piece_oob b hb] at h
  cases h

theorem updCell_board (b : ChessBoard) (i j : Fin 8) (v : Option Piece) (i2 j2 : Fin 8) :
    (b.updCell i j v).board i2 j2 = if i2 = i ∧ j2 = j then v else b.board i2 j2 := rfl

theorem updCell_turn (b : ChessBoard) (i j : Fin 8) (v : Option Piece) :
    (b.updCell i j v).current_turn = b.current_turn := rfl

theorem set_piece_eq {b : ChessBoard} {r c : Int} {v : Option Piece} {i j : Fin 8}
    (hi : pyIdx r = some i) (hj : pyIdx c = some j) :
    b.set_piece r c v = some (b.updCell i j (v.map fun p => { p with position := (r, c) })) := by
  unfold ChessBoard.set_piece
  rw [hi, hj]

theorem set_piece_some {b b2 : ChessBoard} {r c : Int} {v : Option Piece}
    (h : b.set_piece r c v = some b2) :
    ∃ i j, pyIdx r = some i ∧ pyIdx c = some j ∧
      b2 = b.updCell i j (v.map fun p => { p with position := (r, c) }) := by
  unfold ChessBoard.set_piece at h
  rcases hi : pyIdx r with _ | i <;> rcases hj : pyIdx c with _ | j <;>
    rw [hi, hj] at h <;> try cases h
  exact ⟨i, j, rfl, rfl, rfl⟩

theorem setHasMovedAt_eq {b : ChessBoard} {r c : Int} {i j : Fin 8}
    (hi : pyIdx r = some i) (hj : pyIdx c = some j) :
    b.setHasMovedAt r c =
      b.updCell i j ((b.board i j).map fun p => { p with has_moved := true }) := by
  unfold ChessBoard.setHasMovedAt
  rw [hi, hj]

theorem promoteAt_eq {b : ChessBoard} {r c : Int} {i j : Fin 8}
    (hi : pyIdx r = some i) (hj : pyIdx c = some j) :
    b.promoteAt r c =
      b.updCell i j ((b.board i j).map fun p => { p with piece_type := PieceType.queen }) := by
  unfold ChessBoard.promoteAt
  rw [hi, hj]

/-- Strip a first conjunct that holds from an ite condition. -/
theorem ite_and_left {α : Sort u} {A B : Prop} [Decidable (A ∧ B)] [Decidable B]
    (hA : A) (x y : α) : (if A ∧ B then x else y) = if B then x else y := by
  by_cases hB : B
  · rw [if_pos ⟨hA, hB⟩, if_pos hB]
  · rw [if_neg (fun hc => hB hc.2), if_neg hB]

/-- Decomposition of an accepted move into the writes move_piece performed
    (src/main.py lines 91-111).  The write order is castling corner, castling
    rook target, origin, destination; a later write overrides an earlier one,
    which the nested ifs reproduce in reverse order. -/
theorem move_piece_accepted {b b2 : ChessBoard} {fp tp : Int × Int}
    (h : b.move_piece fp tp = some (true, b2)) :
    ∃ (piece : Piece) (fI fJ tI tJ : Fin 8),
      b.get_piece fp.1 fp.2 = some piece ∧
      piece.color = b.current_turn ∧
      b.is_valid_move fp tp = true ∧
      pyIdx fp.1 = some fI ∧ pyIdx fp.2 = some fJ ∧
      pyIdx tp.1 = some tI ∧ pyIdx tp.2 = some tJ ∧
      b2.current_turn =
        (if b.current_turn = PieceColor.white then PieceColor.black else PieceColor.white) ∧
      ((¬ (piece.piece_type = PieceType.king ∧ (fp.2 - tp.2).natAbs = 2) ∧
        ∀ i j, b2.board i j =
          if i = tI ∧ j = tJ then some (finalPieceVal piece tp)
          else if i = fI ∧ j = fJ then none
          else b.board i j) ∨
       (piece.piece_type = PieceType.king ∧ (fp.2 - tp.2).natAbs = 2 ∧
        ∃ (rk : Piece) (cF gF : Fin 8),
          b.get_piece fp.1 (if tp.2 = 2 then 0 else 7) = some rk ∧
          pyIdx (if tp.2 = 2 then (0 : Int) else 7) = some cF ∧
          pyIdx (if tp.2 = 2 then (3 : Int) else 5) = some gF ∧
          ∀ i j, b2.board i j =
            if i = tI ∧ j = tJ then some (finalPieceVal piece tp)
            else if i = fI ∧ j = fJ then none
            else if i = fI ∧ j = gF then
              some (movedRookVal rk fp.1 (if tp.2 = 2 then (3 : Int) else 5))
            else if i = fI ∧ j = cF then none
            else b.board i j)) := by
  simp only [ChessBoard.move_piece] at h
  split at h
  next hp => simp at h
  next piece hp =>
  obtain ⟨hf0, hf8, hg0, hg8⟩ := get_piece_some_bounds hp
  have hfI : pyIdx fp.1 = some ⟨fp.1.toNat, by omega⟩ := pyIdx_of_inRange hf0 hf8
  have hfJ : pyIdx fp.2 = some ⟨fp.2.toNat, by omega⟩ := pyIdx_of_inRange hg0 hg8
  split at h
  next => simp at h
  next hturn =>
  split at h
  next => simp at h
  next hvalid =>
  rw [not_not] at hturn hvalid
  refine ⟨piece, ⟨fp.1.toNat, by omega⟩, ⟨fp.2.toNat, by omega⟩, ?_⟩
  by_cases hc : piece.piece_type = PieceType.king ∧ (fp.2 - tp.2).natAbs = 2
  · -- castling move
    rw [if_pos hc] at h
    have hcF : pyIdx (if tp.2 = 2 then (0 : Int) else 7) =
        some (if tp.2 = 2 then (0 : Fin 8) else 7) := by
      by_cases h2 : tp.2 = 2
      · rw [if_pos h2, if_pos h2]; decide
      · rw [if_neg h2, if_neg h2]; decide
    have hgF : pyIdx (if tp.2 = 2 then (3 : Int) else 5) =
        some (if tp.2 = 2 then (3 : Fin 8) else 5) := by
      by_cases h2 : tp.2 = 2
      · rw [if_pos h2, if_pos h2]; decide
      · rw [if_neg h2, if_neg h2]; decide
    have hknotp : ¬ (piece.piece_type = PieceType.pawn ∧ (tp.1 = 0 ∨ tp.1 = 7)) := by
      rintro ⟨hpt, -⟩
      rw [hc.1] at hpt
      cases hpt
    rcases hrk : b.get_piece fp.1 (if tp.2 = 2 then 0 else 7) with _ | rk <;> rw [hrk] at h
    · rw [set_piece_eq hfI hcF] at h
      simp only [Option.map_none'] at h
      rw [set_piece_eq hfI hgF] at h
      simp only [Option.map_none'] at h
      exact Option.noConfusion h
    · rw [set_piece_eq hfI hcF] at h
      simp only [Option.map_none'] at h
      rw [set_piece_eq hfI hgF] at h
      simp only [Option.map_some'] at h
      rw [setHasMovedAt_eq hfI hgF] at h
      simp only [updCell_board, eq_self_iff_true, and_self, if_true, Option.map_some'] at h
      rw [set_piece_eq hfI hfJ] at h
      simp only [Option.map_none'] at h
      split at h
      next heq => exact Option.noConfusion h
      next b5 heq =>
      obtain ⟨tI, tJ, htI, htJ, rfl⟩ := set_piece_some heq
      rw [setHasMovedAt_eq htI htJ] at h
      simp only [updCell_board, eq_self_iff_true, and_self, if_true, Option.map_some'] at h
      rw [if_neg hknotp] at h
      simp only [Option.some.injEq, Prod.mk.injEq, true_and] at h
      subst h
      refine ⟨tI, tJ, hp, hturn, hvalid, hfI, hfJ, htI, htJ, rfl, ?_⟩
      refine Or.inr ⟨hc.1, hc.2, rk, _, _, rfl, hcF, hgF, ?_⟩
      intro i j
      simp only [updCell_board]
      by_cases h1 : i = tI ∧ j = tJ
      · rw [if_pos h1, if_pos h1]
        simp [finalPieceVal, hknotp]
      · rw [if_neg h1, if_neg h1, if_neg h1]
        by_cases h2 : i = ⟨fp.1.toNat, by omega⟩ ∧ j = ⟨fp.2.toNat, by omega⟩
        · rw [if_pos h2, if_pos h2]
        · rw [if_neg h2, if_neg h2]
          by_cases h3 : i = ⟨fp.1.toNat, by omega⟩ ∧ j = (if tp.2 = 2 then (3 : Fin 8) else 5)
          · rw [if_pos h3, if_pos h3]
            simp [movedRookVal]
          · rw [if_neg h3, if_neg h3, if_neg h3]
  · -- ordinary move
    rw [if_neg hc] at h
    simp only [] at h
    rw [set_piece_eq hfI hfJ] at h
    simp only [Option.map_none'] at h
    split at h
    next heq => exact Option.noConfusion h
    next b5 heq =>
    obtain ⟨tI, tJ, htI, htJ, rfl⟩ := set_piece_some heq
    rw [setHasMovedAt_eq htI htJ] at h
    simp only [updCell_board, eq_self_iff_true, and_self, if_true, Option.map_some'] at h
    by_cases hpromo : piece.piece_type = PieceType.pawn ∧ (tp.1 = 0 ∨ tp.1 = 7)
    · rw [if_pos hpromo] at h
      rw [promoteAt_eq htI htJ] at h
      simp only [updCell_board, eq_self_iff_true, and_self, if_true, Option.map_some'] at h
      simp only [Option.some.injEq, Prod.mk.injEq, true_and] at h
      subst h
      refine ⟨tI, tJ, hp, hturn, hvalid, hfI, hfJ, htI, htJ, rfl, Or.inl ⟨hc, ?_⟩⟩
      intro i j
      simp only [updCell_board]
      by_cases h1 : i = tI ∧ j = tJ
      · rw [if_pos h1, if_pos h1]
        simp [finalPieceVal, hpromo]
      · rw [if_neg h1, if_neg h1, if_neg h1, if_neg h1]
    · rw [if_neg hpromo] at h
      simp only [Option.some.injEq, Prod.mk.injEq, true_and] at h
      subst h
      refine ⟨tI, tJ, hp, hturn, hvalid, hfI, hfJ, htI, htJ, rfl, Or.inl ⟨hc, ?_⟩⟩
      intro i j
      simp only [updCell_board]
      by_cases h1 : i = tI ∧ j = tJ
      · rw [if_pos h1, if_pos h1]
        simp [finalPieceVal, hpromo]
      · rw [if_neg h1, if_neg h1, if_neg h1]

theorem moveAccepted_iff {b : ChessBoard} {fp tp : Int × Int} :
    b.moveAccepted fp tp = true ↔ b.move_piece fp tp = some (true, b.boardAfter fp tp) := by
  unfold ChessBoard.moveAccepted ChessBoard.boardAfter
  rcases h : b.move_piece fp tp with _ | ⟨ok, b2⟩
  · simp
  · rcases ok <;> simp

/-- Every one of move_piece's three rejection tests returns False with the
    state untouched (src/main.py lines 84-89). -/
theorem move_piece_rejected {b : ChessBoard} {fp tp : Int × Int}
    (h : b.get_piece fp.1 fp.2 = none ∨
         (∃ p, b.get_piece fp.1 fp.2 = some p ∧ p.color ≠ b.current_turn) ∨
         b.is_valid_move fp tp = false) :
    b.move_piece fp tp = some (false, b) := by
  simp only [ChessBoard.move_piece]
  rcases hp : b.get_piece fp.1 fp.2 with _ | piece
  · rfl
  · simp only []
    by_cases hcol : piece.color ≠ b.current_turn
    · rw [if_pos hcol]
    · rw [if_neg hcol]
      rcases h with h | ⟨p, hp2, hc⟩ | h
      · rw [hp] at h; cases h
      · rw [hp] at hp2
        injection hp2 with e
        subst e
        exact absurd hc hcol
      · rw [if_pos (by simp [h])]

theorem is_valid_move_ne {b : ChessBoard} {fp tp : Int × Int} {p : Piece}
    (hp : b.get_piece fp.1 fp.2 = some p) (h : b.is_valid_move fp tp = true) :
    ¬ (fp.1 = tp.1 ∧ fp.2 = tp.2) := by
  rintro ⟨e1, e2⟩
  unfold ChessBoard.is_valid_move at h
  rw [← e1, ← e2, hp] at h
  simp at h

/-- C3: for every board and in-range pair of squares that the engine does not
    accept for the side to move — empty from-square, a piece of the wrong
    side, or a failed piece rule — move_piece returns False and the entire
    state (every square, every piece field, the turn) is exactly the input
    state. -/
theorem rejected_move_returns_false_board_unchanged
    (b : ChessBoard) (fr fc tr tc : Int)
    (hfr : 0 ≤ fr) (hfr8 : fr < 8) (hfc : 0 ≤ fc) (hfc8 : fc < 8)
    (htr : 0 ≤ tr) (htr8 : tr < 8) (htc : 0 ≤ tc) (htc8 : tc < 8)
    (h : b.get_piece fr fc = none ∨
         (∃ p, b.get_piece fr fc = some p ∧ p.color ≠ b.current_turn) ∨
         b.is_valid_move (fr, fc) (tr, tc) = false) :
    b.move_piece (fr, fc) (tr, tc) = some (false, b) :=
  move_piece_rejected h

/-- C3 witness: a Rook moved diagonally from the initial position is rejected
    and the board object is returned unchanged. -/
theorem rejected_move_returns_false_board_unchanged_witness :
    initialBoard.move_piece (7, 0) (5, 2) = some (false, initialBoard) :=
  rejected_move_returns_false_board_unchanged initialBoard 7 0 5 2
    (by decide) (by decide) (by decide) (by decide)
    (by decide) (by decide) (by decide) (by decide)
    (Or.inr (Or.inr (by decide)))

/-- C1 counterexample: with out-of-range coordinates admitted, the claim
    fails.  On the initial board the White knight's L-move from (7,1) to the
    off-board square (9,2) passes is_valid_move (the knight rule checks no
    bounds), and move_piece then raises an IndexError inside set_piece after
    the origin square has already been cleared — modelled by the none
    result — instead of returning False. -/
theorem knight_offboard_valid_and_move_raises :
    initialBoard.is_valid_move (7, 1) (9, 2) = true ∧
    initialBoard.move_piece (7, 1) (9, 2) = none := by
  refine ⟨by decide, Option.isNone_iff_eq_none.mp (by decide)⟩

/-- C1 amended: restricted to in-range coordinates the claim holds — when the
    from-square is empty or the pair fails is_valid_move, move_piece returns
    False without touching the state and without raising, and an empty
    from-square also makes is_valid_move itself false. -/
theorem inRange_rejection_safe (b : ChessBoard) (fr fc tr tc : Int)
    (hfr : 0 ≤ fr) (hfr8 : fr < 8) (hfc : 0 ≤ fc) (hfc8 : fc < 8)
    (htr : 0 ≤ tr) (htr8 : tr < 8) (htc : 0 ≤ tc) (htc8 : tc < 8)
    (h : b.get_piece fr fc = none ∨ b.is_valid_move (fr, fc) (tr, tc) = false) :
    (b.get_piece fr fc = none → b.is_valid_move (fr, fc) (tr, tc) = false) ∧
    b.move_piece (fr, fc) (tr, tc) = some (false, b) := by
  constructor
  · intro he
    unfold ChessBoard.is_valid_move
    rw [he]
  · rcases h with h | h
    · exact move_piece_rejected (Or.inl h)
    · exact move_piece_rejected (Or.inr (Or.inr h))

/-- C1 amended witness: moving from an empty in-range square on the initial
    board is reported illegal and is a raise-free no-op. -/
theorem inRange_rejection_safe_witness :
    (initialBoard.get_piece 4 4 = none →
      initialBoard.is_valid_move (4, 4) (5, 4) = false) ∧
    initialBoard.move_piece (4, 4) (5, 4) = some (false, initialBoard) :=
  inRange_rejection_safe initialBoard 4 4 5 4
    (by decide) (by decide) (by decide) (by decide)
    (by decide) (by decide) (by decide) (by decide)
    (Or.inl (by decide))

/-- C10: get_piece is total over all integer coordinates — none whenever
    either coordinate leaves 0..7, and the grid cell's content unchanged on
    in-range coordinates. -/
theorem get_piece_total_spec (b : ChessBoard) :
    (∀ r c : Int, ¬(0 ≤ r ∧ r < 8 ∧ 0 ≤ c ∧ c < 8) → b.get_piece r c = none) ∧
    (∀ i j : Fin 8, b.get_piece (i.val : Int) (j.val : Int) = b.board i j) :=
  ⟨fun _ _ h => get_piece_oob b h, fun i j => get_piece_fin b i j⟩

/-- C10 witness: out-of-range probes on the initial board return none while
    an in-range probe returns the grid cell. -/
theorem get_piece_total_spec_witness :
    initialBoard.get_piece 9 2 = none ∧
    initialBoard.get_piece (-1) 0 = none ∧
    initialBoard.get_piece 0 0 = initialBoard.board 0 0 :=
  ⟨(get_piece_total_spec initialBoard).1 9 2 (by decide),
   (get_piece_total_spec initialBoard).1 (-1) 0 (by decide),
   (get_piece_total_spec initialBoard).2 0 0⟩

/-- C9: frame of an accepted non-castling move — the origin square empties,
    the destination square receives the moved piece (has_moved set, position
    updated, kind promoted exactly under the pawn promotion rule), every
    other square keeps its occupant, and the turn flips. -/
theorem ordinary_move_frame (b : ChessBoard) (fr fc tr tc : Int)
    (hfr : 0 ≤ fr) (hfr8 : fr < 8) (hfc : 0 ≤ fc) (hfc8 : fc < 8)
    (htr : 0 ≤ tr) (htr8 : tr < 8) (htc : 0 ≤ tc) (htc8 : tc < 8)
    (hacc : b.moveAccepted (fr, fc) (tr, tc) = true)
    (hnc : ∀ p, b.get_piece fr fc = some p →
      ¬ (p.piece_type = PieceType.king ∧ (fc - tc).natAbs = 2)) :
    (b.boardAfter (fr, fc) (tr, tc)).get_piece fr fc = none ∧
    (∃ p, b.get_piece fr fc = some p ∧
      (b.boardAfter (fr, fc) (tr, tc)).get_piece tr tc = some (finalPieceVal p (tr, tc))) ∧
    (∀ r c : Int, 0 ≤ r → r < 8 → 0 ≤ c → c < 8 →
      ¬(r = fr ∧ c = fc) → ¬(r = tr ∧ c = tc) →
      (b.boardAfter (fr, fc) (tr, tc)).get_piece r c = b.get_piece r c) ∧
    (b.boardAfter (fr, fc) (tr, tc)).current_turn =
      (if b.current_turn = PieceColor.white then PieceColor.black
       else PieceColor.white) := by
  obtain ⟨piece, fI, fJ, tI, tJ, hp, hturn, hvalid, hfI, hfJ, htI, htJ, hct, hcells⟩ :=
    move_piece_accepted (moveAccepted_iff.mp hacc)
  rcases hcells with ⟨-, hchar⟩ | ⟨hk, habs, -⟩
  swap
  · exact absurd ⟨hk, habs⟩ (hnc piece hp)
  rw [pyIdx_of_inRange hfr hfr8] at hfI
  rw [pyIdx_of_inRange hfc hfc8] at hfJ
  rw [pyIdx_of_inRange htr htr8] at htI
  rw [pyIdx_of_inRange htc htc8] at htJ
  obtain rfl : fI = ⟨fr.toNat, by omega⟩ := (Option.some.inj hfI).symm
  obtain rfl : fJ = ⟨fc.toNat, by omega⟩ := (Option.some.inj hfJ).symm
  obtain rfl : tI = ⟨tr.toNat, by omega⟩ := (Option.some.inj htI).symm
  obtain rfl : tJ = ⟨tc.toNat, by omega⟩ := (Option.some.inj htJ).symm
  have hne : ¬ ((⟨fr.toNat, by omega⟩ : Fin 8) = ⟨tr.toNat, by omega⟩ ∧
      (⟨fc.toNat, by omega⟩ : Fin 8) = ⟨tc.toNat, by omega⟩) := by
    rintro ⟨e1, e2⟩
    rw [Fin.mk.injEq] at e1 e2
    exact is_valid_move_ne hp hvalid ⟨by omega, by omega⟩
  refine ⟨?_, ⟨piece, hp, ?_⟩, ?_, hct⟩
  · rw [get_piece_eq_board _ hfr hfr8 hfc hfc8, hchar, if_neg hne, if_pos ⟨rfl, rfl⟩]
  · rw [get_piece_eq_board _ htr htr8 htc htc8, hchar, if_pos ⟨rfl, rfl⟩]
  · intro r c hr hr8 hc0 hc8 hnf hnt
    rw [get_piece_eq_board _ hr hr8 hc0 hc8, get_piece_eq_board _ hr hr8 hc0 hc8, hchar]
    rw [if_neg, if_neg]
    · rintro ⟨e1, e2⟩
      rw [Fin.mk.injEq] at e1 e2
      exact hnf ⟨by omega, by omega⟩
    · rintro ⟨e1, e2⟩
      rw [Fin.mk.injEq] at e1 e2
      exact hnt ⟨by omega, by omega⟩

/-- C9 witness: the accepted double pawn move (6,4)-(4,4) from the initial
    position changes exactly those two squares and flips the turn. -/
theorem ordinary_move_frame_witness :
    (initialBoard.boardAfter (6, 4) (4, 4)).get_piece 6 4 = none ∧
    (∃ p, initialBoard.get_piece 6 4 = some p ∧
      (initialBoard.boardAfter (6, 4) (4, 4)).get_piece 4 4 =
        some (finalPieceVal p (4, 4))) ∧
    (∀ r c : Int, 0 ≤ r → r < 8 → 0 ≤ c → c < 8 →
      ¬(r = 6 ∧ c = 4) → ¬(r = 4 ∧ c = 4) →
      (initialBoard.boardAfter (6, 4) (4, 4)).get_piece r c =
        initialBoard.get_piece r c) ∧
    (initialBoard.boardAfter (6, 4) (4, 4)).current_turn =
      (if initialBoard.current_turn = PieceColor.white then PieceColor.black
       else PieceColor.white) :=
  ordinary_move_frame initialBoard 6 4 4 4
    (by decide) (by decide) (by decide) (by decide)
    (by decide) (by decide) (by decide) (by decide)
    (by decide)
    (by
      intro p hp
      have h0 : initialBoard.get_piece 6 4 =
          some ⟨PieceType.pawn, PieceColor.white, (6, 4), false⟩ := by decide
      rw [h0] at hp
      obtain rfl : p = ⟨PieceType.pawn, PieceColor.white, (6, 4), false⟩ :=
        (Option.some.inj hp).symm
      decide)

/-- C4 counterexample: move_piece keys the castling rook on `to_col == 2`
    rather than on the side the king moves toward.  On cb4 the never-moved
    White king at (7,6) castles toward the queenside, (7,6) to (7,4):
    validation checks the queenside rook at (7,0), but execution relocates
    the kingside rook (7,7) to (7,5) and leaves the queenside rook at (7,0)
    with (7,3) empty — contradicting the claim that the rook on the side the
    king moves toward goes from column 0 to column 3. -/
theorem castle_rook_choice_ignores_direction :
    cb4.moveAccepted (7, 6) (7, 4) = true ∧
    (cb4.boardAfter (7, 6) (7, 4)).get_piece 7 3 = none ∧
    ((cb4.boardAfter (7, 6) (7, 4)).get_piece 7 0).isSome = true ∧
    ((cb4.boardAfter (7, 6) (7, 4)).get_piece 7 5).map Piece.piece_type =
      some PieceType.rook := by
  refine ⟨by decide, by decide, by decide, by decide⟩

/-- C4 amended: for a king standing on column 4 (the only file an unmoved
    king can occupy), an accepted |dcol| = 2 king move relocates the corner
    piece selected by the destination column — (r,0) to (r,3) when to_col is
    2, (r,7) to (r,5) when to_col is 6 — marks it moved, clears the corner,
    puts the king on the destination with has_moved true, clears the origin,
    and flips the turn.  Acceptance guarantees the selected corner is
    occupied (an empty corner would raise AttributeError, not return True). -/
theorem castle_from_col4_relocates_rook (b : ChessBoard) (r tc : Int) (p : Piece)
    (hk : b.get_piece r 4 = some p) (hkt : p.piece_type = PieceType.king)
    (htc : tc = 2 ∨ tc = 6)
    (hacc : b.moveAccepted (r, 4) (r, tc) = true) :
    (∃ rk, b.get_piece r (if tc = 2 then 0 else 7) = some rk ∧
      (b.boardAfter (r, 4) (r, tc)).get_piece r (if tc = 2 then 3 else 5) =
        some (movedRookVal rk r (if tc = 2 then 3 else 5))) ∧
    (b.boardAfter (r, 4) (r, tc)).get_piece r (if tc = 2 then 0 else 7) = none ∧
    (b.boardAfter (r, 4) (r, tc)).get_piece r tc =
      some { p with position := (r, tc), has_moved := true } ∧
    (b.boardAfter (r, 4) (r, tc)).get_piece r 4 = none ∧
    (b.boardAfter (r, 4) (r, tc)).current_turn =
      (if b.current_turn = PieceColor.white then PieceColor.black
       else PieceColor.white) := by
  obtain ⟨piece, fI, fJ, tI, tJ, hp, hturn, hvalid, hfI, hfJ, htI, htJ, hct, hcells⟩ :=
    move_piece_accepted (moveAccepted_iff.mp hacc)
  obtain ⟨hr0, hr8, -, -⟩ := get_piece_some_bounds hp
  obtain rfl : p = piece := Option.some.inj (hk.symm.trans hp)
  have hcond : p.piece_type = PieceType.king ∧ ((4 : Int) - tc).natAbs = 2 := by
    refine ⟨hkt, ?_⟩
    rcases htc with rfl | rfl <;> decide
  rcases hcells with ⟨hnc, -⟩ | ⟨-, -, rk, cF, gF, hrk, hcF, hgF, hchar⟩
  · exact absurd hcond hnc
  rw [pyIdx_of_inRange hr0 hr8] at hfI htI
  obtain rfl : fI = ⟨r.toNat, by omega⟩ := (Option.some.inj hfI).symm
  obtain rfl : tI = ⟨r.toNat, by omega⟩ := (Option.some.inj htI).symm
  obtain rfl : fJ = (4 : Fin 8) := by
    have h2 : pyIdx (4 : Int) = some fJ := hfJ
    rw [show pyIdx (4 : Int) = some 4 from by decide] at h2
    exact (Option.some.inj h2).symm
  rcases htc with rfl | rfl
  · obtain rfl : tJ = (2 : Fin 8) := by
      have h2 : pyIdx (2 : Int) = some tJ := htJ
      rw [show pyIdx (2 : Int) = some 2 from by decide] at h2
      exact (Option.some.inj h2).symm
    obtain rfl : cF = (0 : Fin 8) := by
      have h2 : pyIdx (0 : Int) = some cF := hcF
      rw [show pyIdx (0 : Int) = some 0 from by decide] at h2
      exact (Option.some.inj h2).symm
    obtain rfl : gF = (3 : Fin 8) := by
      have h2 : pyIdx (3 : Int) = some gF := hgF
      rw [show pyIdx (3 : Int) = some 3 from by decide] at h2
      exact (Option.some.inj h2).symm
    have hrk2 : b.get_piece r 0 = some rk := hrk
    have hchar2 : ∀ i j : Fin 8, (b.boardAfter (r, 4) (r, 2)).board i j =
        if i = ⟨r.toNat, by omega⟩ ∧ j = (2 : Fin 8) then
          some (finalPieceVal p ((r, (2 : Int))))
        else if i = ⟨r.toNat, by omega⟩ ∧ j = (4 : Fin 8) then none
        else if i = ⟨r.toNat, by omega⟩ ∧ j = (3 : Fin 8) then some (movedRookVal rk r 3)
        else if i = ⟨r.toNat, by omega⟩ ∧ j = (0 : Fin 8) then none
        else b.board i j := hchar
    refine ⟨⟨rk, hrk2, ?_⟩, ?_, ?_, ?_, hct⟩
    · show (b.boardAfter (r, 4) (r, 2)).get_piece r 3 = some (movedRookVal rk r 3)
      rw [get_piece_eq_board _ hr0 hr8 (by omega) (by omega), hchar2,
        ite_and_left rfl, ite_and_left rfl, ite_and_left rfl, ite_and_left rfl]
      rfl
    · show (b.boardAfter (r, 4) (r, 2)).get_piece r 0 = none
      rw [get_piece_eq_board _ hr0 hr8 (by omega) (by omega), hchar2,
        ite_and_left rfl, ite_and_left rfl, ite_and_left rfl, ite_and_left rfl]
      rfl
    · show (b.boardAfter (r, 4) (r, 2)).get_piece r 2 =
        some { p with position := ((r : Int), (2 : Int)), has_moved := true }
      rw [get_piece_eq_board _ hr0 hr8 (by omega) (by omega), hchar2,
        ite_and_left rfl, ite_and_left rfl, ite_and_left rfl, ite_and_left rfl]
      rw [if_pos]
      · simp [finalPieceVal, hkt]
      · exact rfl
    · show (b.boardAfter (r, 4) (r, 2)).get_piece r 4 = none
      rw [get_piece_eq_board _ hr0 hr8 (by omega) (by omega), hchar2,
        ite_and_left rfl, ite_and_left rfl, ite_and_left rfl, ite_and_left rfl]
      rfl
  · obtain rfl : tJ = (6 : Fin 8) := by
      have h2 : pyIdx (6 : Int) = some tJ := htJ
      rw [show pyIdx (6 : Int) = some 6 from by decide] at h2
      exact (Option.some.inj h2).symm
    obtain rfl : cF = (7 : Fin 8) := by
      have h2 : pyIdx (7 : Int) = some cF := hcF
      rw [show pyIdx (7 : Int) = some 7 from by decide] at h2
      exact (Option.some.inj h2).symm
    obtain rfl : gF = (5 : Fin 8) := by
      have h2 : pyIdx (5 : Int) = some gF := hgF
      rw [show pyIdx (5 : Int) = some 5 from by decide] at h2
      exact (Option.some.inj h2).symm
    have hrk2 : b.get_piece r 7 = some rk := hrk
    have hchar2 : ∀ i j : Fin 8, (b.boardAfter (r, 4) (r, 6)).board i j =
        if i = ⟨r.toNat, by omega⟩ ∧ j = (6 : Fin 8) then
          some (finalPieceVal p ((r, (6 : Int))))
        else if i = ⟨r.toNat, by omega⟩ ∧ j = (4 : Fin 8) then none
        else if i = ⟨r.toNat, by omega⟩ ∧ j = (5 : Fin 8) then some (movedRookVal rk r 5)
        else if i = ⟨r.toNat, by omega⟩ ∧ j = (7 : Fin 8) then none
        else b.board i j := hchar
    refine ⟨⟨rk, hrk2, ?_⟩, ?_, ?_, ?_, hct⟩
    · show (b.boardAfter (r, 4) (r, 6)).get_piece r 5 = some (movedRookVal rk r 5)
      rw [get_piece_eq_board _ hr0 hr8 (by omega) (by omega), hchar2,
        ite_and_left rfl, ite_and_left rfl, ite_and_left rfl, ite_and_left rfl]
      rfl
    · show (b.boardAfter (r, 4) (r, 6)).get_piece r 7 = none
      rw [get_piece_eq_board _ hr0 hr8 (by omega) (by omega), hchar2,
        ite_and_left rfl, ite_and_left rfl, ite_and_left rfl, ite_and_left rfl]
      rfl
    · show (b.boardAfter (r, 4) (r, 6)).get_piece r 6 =
        some { p with position := ((r : Int), (6 : Int)), has_moved := true }
      rw [get_piece_eq_board _ hr0 hr8 (by omega) (by omega), hchar2,
        ite_and_left rfl, ite_and_left rfl, ite_and_left rfl, ite_and_left rfl]
      rw [if_pos]
      · simp [finalPieceVal, hkt]
      · exact rfl
    · show (b.boardAfter (r, 4) (r, 6)).get_piece r 4 = none
      rw [get_piece_eq_board _ hr0 hr8 (by omega) (by omega), hchar2,
        ite_and_left rfl, ite_and_left rfl, ite_and_left rfl, ite_and_left rfl]
      rfl

/-- C4 amended witness: the standard White kingside castle on castleBoard. -/
theorem castle_from_col4_relocates_rook_witness :
    (∃ rk, castleBoard.get_piece 7 (if (6 : Int) = 2 then 0 else 7) = some rk ∧
      (castleBoard.boardAfter (7, 4) (7, 6)).get_piece 7 (if (6 : Int) = 2 then 3 else 5) =
        some (movedRookVal rk 7 (if (6 : Int) = 2 then 3 else 5))) ∧
    (castleBoard.boardAfter (7, 4) (7, 6)).get_piece 7 (if (6 : Int) = 2 then 0 else 7) = none ∧
    (castleBoard.boardAfter (7, 4) (7, 6)).get_piece 7 6 =
      some { (⟨PieceType.king, PieceColor.white, (7, 4), false⟩ : Piece) with
             position := ((7 : Int), (6 : Int)), has_moved := true } ∧
    (castleBoard.boardAfter (7, 4) (7, 6)).get_piece 7 4 = none ∧
    (castleBoard.boardAfter (7, 4) (7, 6)).current_turn =
      (if castleBoard.current_turn = PieceColor.white then PieceColor.black
       else PieceColor.white) :=
  castle_from_col4_relocates_rook castleBoard 7 6
    ⟨PieceType.king, PieceColor.white, (7, 4), false⟩
    (by decide) (by decide) (Or.inr rfl) (by decide)

/-- Characterization of _validate_pawn (src/main.py lines 137-160) for an
    occupied from-square: one step forward to an empty square, the double
    step from the starting rank over two empty squares, or the one-step
    diagonal capture of an opposing piece. -/
theorem validate_pawn_iff {b : ChessBoard} {fp tp : Int × Int} {p : Piece}
    (hp : b.get_piece fp.1 fp.2 = some p) :
    b._validate_pawn fp tp = true ↔
      ((tp.2 = fp.2 ∧ tp.1 = fp.1 + pawnDir p.color ∧ b.get_piece tp.1 tp.2 = none) ∨
       (tp.2 = fp.2 ∧ tp.1 = fp.1 + 2 * pawnDir p.color ∧
         ((p.color = PieceColor.white ∧ fp.1 = 6) ∨
          (p.color = PieceColor.black ∧ fp.1 = 1)) ∧
         b.get_piece (fp.1 + pawnDir p.color) fp.2 = none ∧
         b.get_piece tp.1 tp.2 = none) ∨
       ((tp.2 - fp.2).natAbs = 1 ∧ tp.1 = fp.1 + pawnDir p.color ∧
         ∃ q, b.get_piece tp.1 tp.2 = some q ∧ q.color ≠ p.color)) := by
  unfold ChessBoard._validate_pawn
  simp only []
  rw [hp]
  simp only [pawnDir]
  rcases ht : b.get_piece tp.1 tp.2 with _ | q <;>
    cases hcq : p.color <;>
    (first
      | rw [show (if PieceColor.white = PieceColor.white then (-1 : Int) else 1) = -1 from rfl]
      | rw [show (if PieceColor.black = PieceColor.white then (-1 : Int) else 1) = 1 from rfl]) <;>
    split_ifs with h1 h2 h3
  · exact ⟨fun _ => Or.inl ⟨h1.1.symm, h1.2, rfl⟩, fun _ => rfl⟩
  · constructor
    · intro hx
      rw [Bool.and_eq_true] at hx
      have hmid : b.get_piece (fp.1 + -1) fp.2 = none :=
        Option.isNone_iff_eq_none.mp hx.1
      rcases h2.2 with ⟨-, h6, h4⟩ | ⟨hbad, -, -⟩
      · exact Or.inr (Or.inl ⟨h2.1.symm, by omega, Or.inl ⟨rfl, h6⟩, hmid, rfl⟩)
      · cases hbad
    · rintro (⟨e1, e2, -⟩ | ⟨-, -, -, e4, -⟩ | ⟨e1, -, -⟩)
      · exact absurd ⟨e1.symm, e2⟩ h1
      · simp [e4]
      · exact absurd e1 (by rw [← h2.1]; omega)
  · constructor
    · intro hx; simp at hx
    · rintro (⟨e1, -, -⟩ | ⟨e1, -, -⟩ | ⟨-, -, q2, e3, -⟩)
      · exact absurd h3.1 (by rw [e1]; omega)
      · exact absurd h3.1 (by rw [e1]; omega)
      · cases e3
  · constructor
    · intro hx; simp at hx
    · rintro (⟨e1, e2, -⟩ | ⟨e1, e2, e3, -, -⟩ | ⟨e1, e2, -⟩)
      · exact absurd ⟨e1.symm, e2⟩ h1
      · rcases e3 with ⟨-, h6⟩ | ⟨hbad, -⟩
        · exact absurd ⟨e1.symm, Or.inl ⟨rfl, h6, by omega⟩⟩ h2
        · cases hbad
      · exact absurd ⟨e1, e2⟩ h3
  · exact ⟨fun _ => Or.inl ⟨h1.1.symm, h1.2, rfl⟩, fun _ => rfl⟩
  · constructor
    · intro hx
      rw [Bool.and_eq_true] at hx
      have hmid : b.get_piece (fp.1 + 1) fp.2 = none :=
        Option.isNone_iff_eq_none.mp hx.1
      rcases h2.2 with ⟨hbad, -, -⟩ | ⟨-, h1r, h3r⟩
      · cases hbad
      · exact Or.inr (Or.inl ⟨h2.1.symm, by omega, Or.inr ⟨rfl, h1r⟩, hmid, rfl⟩)
    · rintro (⟨e1, e2, -⟩ | ⟨-, -, -, e4, -⟩ | ⟨e1, -, -⟩)
      · exact absurd ⟨e1.symm, e2⟩ h1
      · simp [e4]
      · exact absurd e1 (by rw [← h2.1]; omega)
  · constructor
    · intro hx; simp at hx
    · rintro (⟨e1, -, -⟩ | ⟨e1, -, -⟩ | ⟨-, -, q2, e3, -⟩)
      · exact absurd h3.1 (by rw [e1]; omega)
      · exact absurd h3.1 (by rw [e1]; omega)
      · cases e3
  · constructor
    · intro hx; simp at hx
    · rintro (⟨e1, e2, -⟩ | ⟨e1, e2, e3, -, -⟩ | ⟨e1, e2, -⟩)
      · exact absurd ⟨e1.symm, e2⟩ h1
      · rcases e3 with ⟨hbad, -⟩ | ⟨-, h1r⟩
        · cases hbad
        · exact absurd ⟨e1.symm, Or.inr ⟨rfl, h1r, by omega⟩⟩ h2
      · exact absurd ⟨e1, e2⟩ h3
  · constructor
    · intro hx; simp at hx
    · rintro (⟨-, -, e3⟩ | ⟨-, -, -, -, e5⟩ | ⟨e1, -, -⟩)
      · cases e3
      · cases e5
      · exact absurd e1 (by rw [h1.1]; omega)
  · constructor
    · intro hx
      rw [Bool.and_eq_true] at hx
      simp at hx
    · rintro (⟨-, -, e3⟩ | ⟨-, -, -, -, e5⟩ | ⟨e1, -, -⟩)
      · cases e3
      · cases e5
      · exact absurd e1 (by rw [h2.1]; omega)
  · constructor
    · intro hx
      exact Or.inr (Or.inr ⟨h3.1, h3.2, q, rfl, by simpa using hx⟩)
    · rintro (⟨-, -, e3⟩ | ⟨-, -, -, -, e5⟩ | ⟨-, -, q2, e3, e4⟩)
      · cases e3
      · cases e5
      · obtain rfl : q = q2 := Option.some.inj e3
        exact decide_eq_true (by simpa using e4)
  · constructor
    · intro hx; simp at hx
    · rintro (⟨-, -, e3⟩ | ⟨-, -, -, -, e5⟩ | ⟨e1, e2, -⟩)
      · cases e3
      · cases e5
      · exact absurd ⟨e1, e2⟩ h3
  · constructor
    · intro hx; simp at hx
    · rintro (⟨-, -, e3⟩ | ⟨-, -, -, -, e5⟩ | ⟨e1, -, -⟩)
      · cases e3
      · cases e5
      · exact absurd e1 (by rw [h1.1]; omega)
  · constructor
    · intro hx
      rw [Bool.and_eq_true] at hx
      simp at hx
    · rintro (⟨-, -, e3⟩ | ⟨-, -, -, -, e5⟩ | ⟨e1, -, -⟩)
      · cases e3
      · cases e5
      · exact absurd e1 (by rw [h2.1]; omega)
  · constructor
    · intro hx
      exact Or.inr (Or.inr ⟨h3.1, h3.2, q, rfl, by simpa using hx⟩)
    · rintro (⟨-, -, e3⟩ | ⟨-, -, -, -, e5⟩ | ⟨-, -, q2, e3, e4⟩)
      · cases e3
      · cases e5
      · obtain rfl : q = q2 := Option.some.inj e3
        exact decide_eq_true (by simpa using e4)
  · constructor
    · intro hx; simp at hx
    · rintro (⟨-, -, e3⟩ | ⟨-, -, -, -, e5⟩ | ⟨e1, e2, -⟩)
      · cases e3
      · cases e5
      · exact absurd ⟨e1, e2⟩ h3

/-- is_valid_move on a pawn from-square: the same-color-target filter plus
    the pawn validator (src/main.py lines 113-124). -/
theorem is_valid_move_pawn_iff {b : ChessBoard} {fp tp : Int × Int} {p : Piece}
    (hp : b.get_piece fp.1 fp.2 = some p) (hpt : p.piece_type = PieceType.pawn) :
    b.is_valid_move fp tp = true ↔
      ((∀ t, b.get_piece tp.1 tp.2 = some t → ¬ t.color = p.color) ∧
       b._validate_pawn fp tp = true) := by
  unfold ChessBoard.is_valid_move
  rw [hp]
  rcases ht : b.get_piece tp.1 tp.2 with _ | t
  · simp only []
    rw [hpt]
    constructor
    · intro hv
      exact ⟨fun t ha => Option.noConfusion ha, hv⟩
    · intro hv
      exact hv.2
  · simp only []
    rw [hpt]
    by_cases hc : t.color = p.color
    · rw [if_pos (by simp [hc])]
      constructor
      · intro hv; cases hv
      · rintro ⟨hfilter, -⟩
        exact absurd hc (hfilter t rfl)
    · rw [if_neg (by simp [hc])]
      constructor
      · intro hv
        refine ⟨fun t2 ha => ?_, hv⟩
        obtain rfl : t = t2 := Option.some.inj ha
        exact hc
      · intro hv
        exact hv.2

/-- C5: characterization of pawn legality — for an in-range pair whose
    from-square holds a pawn of the side to move, is_valid_move holds exactly
    for the single forward step to an empty square, the double step from the
    starting rank (row 6 for White, row 1 for Black) over two empty squares,
    or the one-step diagonal capture of an opposing piece. -/
theorem pawn_move_legality (b : ChessBoard) (fr fc tr tc : Int) (p : Piece)
    (hfr : 0 ≤ fr) (hfr8 : fr < 8) (hfc : 0 ≤ fc) (hfc8 : fc < 8)
    (htr : 0 ≤ tr) (htr8 : tr < 8) (htc : 0 ≤ tc) (htc8 : tc < 8)
    (hp : b.get_piece fr fc = some p) (hpt : p.piece_type = PieceType.pawn)
    (hside : p.color = b.current_turn) :
    b.is_valid_move (fr, fc) (tr, tc) = true ↔
      ((tc = fc ∧ tr = fr + pawnDir p.color ∧ b.get_piece tr tc = none) ∨
       (tc = fc ∧ tr = fr + 2 * pawnDir p.color ∧
         ((p.color = PieceColor.white ∧ fr = 6) ∨ (p.color = PieceColor.black ∧ fr = 1)) ∧
         b.get_piece (fr + pawnDir p.color) fc = none ∧ b.get_piece tr tc = none) ∨
       ((tc - fc).natAbs = 1 ∧ tr = fr + pawnDir p.color ∧
         ∃ q, b.get_piece tr tc = some q ∧ q.color ≠ p.color)) := by
  rw [is_valid_move_pawn_iff hp hpt, validate_pawn_iff hp]
  constructor
  · rintro ⟨-, hv⟩
    exact hv
  · intro hv
    refine ⟨?_, hv⟩
    rintro t ha
    rcases hv with ⟨-, -, he⟩ | ⟨-, -, -, -, he⟩ | ⟨-, -, q, he, hne⟩
    · rw [ha] at he; cases he
    · rw [ha] at he; cases he
    · rw [ha] at he
      obtain rfl : t = q := (Option.some.inj he)
      exact hne

/-- C5 witness: on the initial board the White pawn's double step from (6,4)
    to (4,4) is legal exactly by the double-step clause, both intermediate
    squares being empty. -/
theorem pawn_move_legality_witness :
    initialBoard.is_valid_move ((6 : Int), (4 : Int)) ((4 : Int), (4 : Int)) = true ↔
      (((4 : Int) = 4 ∧ (4 : Int) = 6 + pawnDir PieceColor.white ∧
         initialBoard.get_piece 4 4 = none) ∨
       ((4 : Int) = 4 ∧ (4 : Int) = 6 + 2 * pawnDir PieceColor.white ∧
         ((PieceColor.white = PieceColor.white ∧ (6 : Int) = 6) ∨
          (PieceColor.white = PieceColor.black ∧ (6 : Int) = 1)) ∧
         initialBoard.get_piece (6 + pawnDir PieceColor.white) 4 = none ∧
         initialBoard.get_piece 4 4 = none) ∨
       (((4 : Int) - 4).natAbs = 1 ∧ (4 : Int) = 6 + pawnDir PieceColor.white ∧
         ∃ q, initialBoard.get_piece 4 4 = some q ∧ q.color ≠ PieceColor.white)) :=
  pawn_move_legality initialBoard 6 4 4 4
    ⟨PieceType.pawn, PieceColor.white, (6, 4), false⟩
    (by decide) (by decide) (by decide) (by decide)
    (by decide) (by decide) (by decide) (by decide)
    (by decide) (by decide) (by decide)

theorem move_piece_false_eq {b b2 : ChessBoard} {fp tp : Int × Int}
    (h : b.move_piece fp tp = some (false, b2)) : b2 = b := by
  simp only [ChessBoard.move_piece] at h
  rcases hp : b.get_piece fp.1 fp.2 with _ | piece <;> rw [hp] at h
  · simp only [Option.some.injEq, Prod.mk.injEq, true_and] at h
    exact h.symm
  · simp only [] at h
    split at h
    · simp only [Option.some.injEq, Prod.mk.injEq, true_and] at h
      exact h.symm
    · split at h
      · simp only [Option.some.injEq, Prod.mk.injEq, true_and] at h
        exact h.symm
      · exfalso
        split at h
        · exact Option.noConfusion h
        · split at h
          · exact Option.noConfusion h
          · split at h
            · exact Option.noConfusion h
            · simp at h

/-- One move_piece call never resets a has_moved flag: any piece recorded
    with has_moved = false afterwards was already on that square, unchanged,
    before the call. -/
theorem move_piece_has_moved_mono {b b2 : ChessBoard} {fp tp : Int × Int} {res : Bool}
    (h : b.move_piece fp tp = some (res, b2)) :
    ∀ i j p2, b2.board i j = some p2 → p2.has_moved = false → b.board i j = some p2 := by
  intro i j p2 hc hm
  rcases res
  · rw [move_piece_false_eq h] at hc
    exact hc
  · obtain ⟨piece, fI, fJ, tI, tJ, -, -, -, -, -, -, -, -, hcells⟩ := move_piece_accepted h
    rcases hcells with ⟨-, hchar⟩ | ⟨-, -, rk, cF, gF, -, -, -, hchar⟩ <;> rw [hchar i j] at hc
    · by_cases h1 : i = tI ∧ j = tJ
      · rw [if_pos h1] at hc
        obtain rfl : finalPieceVal piece tp = p2 := Option.some.inj hc
        simp [finalPieceVal] at hm
      · rw [if_neg h1] at hc
        by_cases h2 : i = fI ∧ j = fJ
        · rw [if_pos h2] at hc
          cases hc
        · rw [if_neg h2] at hc
          exact hc
    · by_cases h1 : i = tI ∧ j = tJ
      · rw [if_pos h1] at hc
        obtain rfl : finalPieceVal piece tp = p2 := Option.some.inj hc
        simp [finalPieceVal] at hm
      · rw [if_neg h1] at hc
        by_cases h2 : i = fI ∧ j = fJ
        · rw [if_pos h2] at hc
          cases hc
        · rw [if_neg h2] at hc
          by_cases h3 : i = fI ∧ j = gF
          · rw [if_pos h3] at hc
            obtain rfl : movedRookVal rk fp.1 (if tp.2 = 2 then (3 : Int) else 5) = p2 :=
              Option.some.inj hc
            simp [movedRookVal] at hm
          · rw [if_neg h3] at hc
            by_cases h4 : i = fI ∧ j = cF
            · rw [if_pos h4] at hc
              cases hc
            · rw [if_neg h4] at hc
              exact hc

theorem runMoves_has_moved_mono :
    ∀ (ms : List ((Int × Int) × (Int × Int))) (b b2 : ChessBoard),
    runMoves b ms = some b2 →
    ∀ i j p2, b2.board i j = some p2 → p2.has_moved = false → b.board i j = some p2 := by
  intro ms
  induction ms with
  | nil =>
    intro b b2 h i j p2 hc hm
    obtain rfl : b = b2 := Option.some.inj h
    exact hc
  | cons m ms ih =>
    intro b b2 h i j p2 hc hm
    unfold runMoves at h
    rcases hmv : b.move_piece m.1 m.2 with _ | ⟨res, b1⟩ <;> rw [hmv] at h
    · cases h
    · exact move_piece_has_moved_mono hmv i j p2 (ih b1 b2 h i j p2 hc hm) hm

/-- C8: has_moved is monotone across every raise-free sequence of engine
    calls — a piece recorded with has_moved = false after the sequence has
    sat untouched on its square since before the sequence, so no operation
    ever resets a set flag (queries and is_valid_move take no state and the
    only mutator is move_piece). -/
theorem has_moved_monotone (ms : List ((Int × Int) × (Int × Int))) (b : ChessBoard)
    (hok : (runMoves b ms).isSome = true) :
    ∀ i j p2, (runBoard b ms).board i j = some p2 → p2.has_moved = false →
      b.board i j = some p2 := by
  intro i j p2 hc hm
  rcases hr : runMoves b ms with _ | b2
  · rw [hr] at hok; cases hok
  · have he : runBoard b ms = b2 := by unfold runBoard; rw [hr]; rfl
    rw [he] at hc
    exact runMoves_has_moved_mono ms b b2 hr i j p2 hc hm

/-- C8 witness: after the double pawn move from the initial position, the
    untouched Black pawn on (1,0) still shows has_moved = false and indeed
    sat there, unchanged, from the start. -/
theorem has_moved_monotone_witness :
    initialBoard.board 1 0 =
      some ⟨PieceType.pawn, PieceColor.black, (1, 0), false⟩ :=
  has_moved_monotone [((6, 4), (4, 4))] initialBoard (by decide) 1 0
    ⟨PieceType.pawn, PieceColor.black, (1, 0), false⟩ (by decide) (by decide)

theorem noPawnEdge_get {b : ChessBoard} (h : noPawnEdge b) :
    ∀ r c : Int, (r = 0 ∨ r = 7) →
      (b.get_piece r c).map Piece.piece_type ≠ some PieceType.pawn := by
  intro r c hr
  by_cases hb : 0 ≤ r ∧ r < 8 ∧ 0 ≤ c ∧ c < 8
  · rw [get_piece_eq_board b hb.1 hb.2.1 hb.2.2.1 hb.2.2.2]
    refine h ⟨r.toNat, by omega⟩ ⟨c.toNat, by omega⟩ ?_
    rcases hr with rfl | rfl
    · exact Or.inl rfl
    · exact Or.inr rfl
  · rw [get_piece_oob b hb]
    simp

/-- An accepted move never deposits a pawn on row 0 or row 7 when the input
    board had none there: the moved pawn is promoted exactly when it lands
    on a raw edge row, a pawn cannot reach an edge row through index
    wrap-around unless it already stood on one, and the castling rook comes
    from the same row it returns to. -/
theorem step_noPawnEdge {b b2 : ChessBoard} {fp tp : Int × Int}
    (hin : noPawnEdge b) (h : b.move_piece fp tp = some (true, b2)) : noPawnEdge b2 := by
  obtain ⟨piece, fI, fJ, tI, tJ, hp, -, hvalid, hfI, hfJ, htI, htJ, -, hcells⟩ :=
    move_piece_accepted h
  obtain ⟨hf0, hf8, hg0, hg8⟩ := get_piece_some_bounds hp
  rw [pyIdx_of_inRange hf0 hf8] at hfI
  obtain rfl : fI = ⟨fp.1.toNat, by omega⟩ := (Option.some.inj hfI).symm
  have hfin : ∀ i : Fin 8, (i.val = 0 ∨ i.val = 7) → i = tI →
      (some (finalPieceVal piece tp)).map Piece.piece_type ≠ some PieceType.pawn := by
    rintro i hedge rfl habs
    simp only [Option.map_some', Option.some.injEq, finalPieceVal] at habs
    by_cases hpr : piece.piece_type = PieceType.pawn ∧ (tp.1 = 0 ∨ tp.1 = 7)
    · rw [if_pos hpr] at habs
      cases habs
    · rw [if_neg hpr] at habs
      have hnotedge : ¬ (tp.1 = 0 ∨ tp.1 = 7) := fun hx => hpr ⟨habs, hx⟩
      have hB := (validate_pawn_iff hp).mp ((is_valid_move_pawn_iff hp habs).mp hvalid).2
      have hri := pyIdx_val htI
      rcases hB with ⟨-, h1, -⟩ | ⟨-, h1, hrows, -, -⟩ | ⟨-, h1, -⟩
      · rcases hcq : piece.color
        · rw [hcq] at h1
          rw [show pawnDir PieceColor.white = -1 from rfl] at h1
          rcases hedge with he | he <;> rw [he] at hri <;>
            rcases hri with hz | hz
          · exact hnotedge (Or.inl hz)
          · omega
          · exact hnotedge (Or.inr hz)
          · -- tp.1 = -1, White: the pawn stood on row 0 of b
            have hfr0 : fp.1 = 0 := by omega
            have hcell : b.board ⟨fp.1.toNat, by omega⟩ ⟨fp.2.toNat, by omega⟩ =
                some piece := by
              rw [← get_piece_eq_board b hf0 hf8 hg0 hg8]
              exact hp
            refine hin ⟨fp.1.toNat, by omega⟩ ⟨fp.2.toNat, by omega⟩
              (Or.inl (by show fp.1.toNat = 0; omega)) ?_
            rw [hcell]
            simp [habs]
        · rw [hcq] at h1
          rw [show pawnDir PieceColor.black = 1 from rfl] at h1
          rcases hedge with he | he <;> rw [he] at hri <;>
            rcases hri with hz | hz
          · exact hnotedge (Or.inl hz)
          · omega
          · exact hnotedge (Or.inr hz)
          · -- tp.1 = -1, Black: fp.1 = -2, impossible
            omega
      · rcases hrows with ⟨hw, hfr⟩ | ⟨hbk, hfr⟩
        · rw [hw, show pawnDir PieceColor.white = -1 from rfl] at h1
          rcases hedge with he | he <;> rw [he] at hri <;> omega
        · rw [hbk, show pawnDir PieceColor.black = 1 from rfl] at h1
          rcases hedge with he | he <;> rw [he] at hri <;> omega
      · rcases hcq : piece.color
        · rw [hcq] at h1
          rw [show pawnDir PieceColor.white = -1 from rfl] at h1
          rcases hedge with he | he <;> rw [he] at hri <;>
            rcases hri with hz | hz
          · exact hnotedge (Or.inl hz)
          · omega
          · exact hnotedge (Or.inr hz)
          · have hfr0 : fp.1 = 0 := by omega
            have hcell : b.board ⟨fp.1.toNat, by omega⟩ ⟨fp.2.toNat, by omega⟩ =
                some piece := by
              rw [← get_piece_eq_board b hf0 hf8 hg0 hg8]
              exact hp
            refine hin ⟨fp.1.toNat, by omega⟩ ⟨fp.2.toNat, by omega⟩
              (Or.inl (by show fp.1.toNat = 0; omega)) ?_
            rw [hcell]
            simp [habs]
        · rw [hcq] at h1
          rw [show pawnDir PieceColor.black = 1 from rfl] at h1
          rcases hedge with he | he <;> rw [he] at hri <;>
            rcases hri with hz | hz
          · exact hnotedge (Or.inl hz)
          · omega
          · exact hnotedge (Or.inr hz)
          · omega
  intro i j hedge
  rcases hcells with ⟨-, hchar⟩ | ⟨-, -, rk, cF, gF, hrk, hcF, hgF, hchar⟩ <;> rw [hchar i j]
  · by_cases h1 : i = tI ∧ j = tJ
    · rw [if_pos h1]
      exact hfin i hedge h1.1
    · rw [if_neg h1]
      by_cases h2 : i = ⟨fp.1.toNat, by omega⟩ ∧ j = fJ
      · rw [if_pos h2]
        simp
      · rw [if_neg h2]
        exact hin i j hedge
  · by_cases h1 : i = tI ∧ j = tJ
    · rw [if_pos h1]
      exact hfin i hedge h1.1
    · rw [if_neg h1]
      by_cases h2 : i = ⟨fp.1.toNat, by omega⟩ ∧ j = fJ
      · rw [if_pos h2]
        simp
      · rw [if_neg h2]
        by_cases h3 : i = ⟨fp.1.toNat, by omega⟩ ∧ j = gF
        · rw [if_pos h3]
          have hfp1 : fp.1 = 0 ∨ fp.1 = 7 := by
            rcases hedge with he | he <;> rw [h3.1] at he <;> simp at he <;> omega
          have := noPawnEdge_get hin fp.1 (if tp.2 = 2 then 0 else 7) hfp1
          rw [hrk] at this
          simp only [Option.map_some', Option.some.injEq] at this ⊢
          intro habs
          exact this (by rw [← habs]; rfl)
        · rw [if_neg h3]
          by_cases h4 : i = ⟨fp.1.toNat, by omega⟩ ∧ j = cF
          · rw [if_pos h4]
            simp
          · rw [if_neg h4]
            exact hin i j hedge

/-- C6: a Pawn accepted onto its farthest rank (row 0 for White, row 7 for
    Black) stands on the destination as a Queen, and consequently no board
    state reachable from the initial position by accepted moves has a Pawn
    on row 0 or row 7. -/
theorem pawn_promotion_and_no_pawn_on_edge :
    (∀ (b : ChessBoard) (fp tp : Int × Int) (p : Piece),
        b.get_piece fp.1 fp.2 = some p → p.piece_type = PieceType.pawn →
        ((p.color = PieceColor.white ∧ tp.1 = 0) ∨
         (p.color = PieceColor.black ∧ tp.1 = 7)) →
        b.moveAccepted fp tp = true →
        ((b.boardAfter fp tp).get_piece tp.1 tp.2).map Piece.piece_type =
          some PieceType.queen) ∧
    (∀ b, Reachable b → noPawnEdge b) := by
  constructor
  · intro b fp tp p hp hpt hfar hacc
    obtain ⟨piece, fI, fJ, tI, tJ, hp2, -, hvalid, hfI, hfJ, htI, htJ, -, hcells⟩ :=
      move_piece_accepted (moveAccepted_iff.mp hacc)
    obtain rfl : p = piece := Option.some.inj (hp.symm.trans hp2)
    rcases hcells with ⟨-, hchar⟩ | ⟨hk, -, -⟩
    swap
    · rw [hpt] at hk
      cases hk
    have hv2 := (validate_pawn_iff hp).mp ((is_valid_move_pawn_iff hp hpt).mp hvalid).2
    obtain ⟨-, -, hg0, hg8⟩ := get_piece_some_bounds hp
    have htp2 : 0 ≤ tp.2 ∧ tp.2 < 8 := by
      rcases hv2 with ⟨e1, -, -⟩ | ⟨e1, -, -⟩ | ⟨-, -, q, hq2, -⟩
      · rw [e1]; exact ⟨hg0, hg8⟩
      · rw [e1]; exact ⟨hg0, hg8⟩
      · have hb := get_piece_some_bounds hq2
        exact ⟨hb.2.2.1, hb.2.2.2⟩
    have htp1 : 0 ≤ tp.1 ∧ tp.1 < 8 := by
      rcases hfar with ⟨-, e⟩ | ⟨-, e⟩ <;> rw [e] <;> exact ⟨by omega, by omega⟩
    rw [pyIdx_of_inRange htp1.1 htp1.2] at htI
    rw [pyIdx_of_inRange htp2.1 htp2.2] at htJ
    obtain rfl : tI = ⟨tp.1.toNat, by omega⟩ := (Option.some.inj htI).symm
    obtain rfl : tJ = ⟨tp.2.toNat, by omega⟩ := (Option.some.inj htJ).symm
    rw [get_piece_eq_board _ htp1.1 htp1.2 htp2.1 htp2.2, hchar, if_pos ⟨rfl, rfl⟩]
    have hpr : p.piece_type = PieceType.pawn ∧ (tp.1 = 0 ∨ tp.1 = 7) := by
      refine ⟨hpt, ?_⟩
      rcases hfar with ⟨-, e⟩ | ⟨-, e⟩
      · exact Or.inl e
      · exact Or.inr e
    simp only [finalPieceVal, Option.map_some', Option.some.injEq]
    rw [if_pos hpr]
  · intro b hb
    induction hb with
    | init => unfold noPawnEdge; decide
    | step hr hmv ih => exact step_noPawnEdge ih hmv

/-- C6 witness: on promoBoard the White pawn's move (1,0)-(0,0) is accepted
    and the destination holds a Queen, and the initial board has no pawn on
    rows 0 and 7. -/
theorem pawn_promotion_and_no_pawn_on_edge_witness :
    ((promoBoard.boardAfter (1, 0) (0, 0)).get_piece 0 0).map Piece.piece_type =
      some PieceType.queen ∧ noPawnEdge initialBoard :=
  ⟨pawn_promotion_and_no_pawn_on_edge.1 promoBoard (1, 0) (0, 0)
      ⟨PieceType.pawn, PieceColor.white, (1, 0), false⟩
      (by decide) (by decide) (Or.inl (by decide)) (by decide),
   pawn_promotion_and_no_pawn_on_edge.2 initialBoard Reachable.init⟩

theorem validate_pawnS_eq (b : ChessBoard) (fp tp : Int × Int) :
    _validate_pawnS b fp tp = (b._validate_pawn fp tp, b) := by
  simp only [_validate_pawnS, ChessBoard._validate_pawn, get_pieceS]
  cases hq : b.get_piece fp.1 fp.2
  · rfl
  rename_i piece
  simp only []
  by_cases h1 : fp.2 = tp.2 ∧
      tp.1 = fp.1 + (if piece.color = PieceColor.white then (-1 : Int) else 1)
  · rw [if_pos h1, if_pos h1]
  · rw [if_neg h1, if_neg h1]
    by_cases h2 : fp.2 = tp.2 ∧
        ((piece.color = PieceColor.white ∧ fp.1 = 6 ∧ tp.1 = 4) ∨
         (piece.color = PieceColor.black ∧ fp.1 = 1 ∧ tp.1 = 3))
    · rw [if_pos h2, if_pos h2]
    · rw [if_neg h2, if_neg h2]
      by_cases h3 : (tp.2 - fp.2).natAbs = 1 ∧
          tp.1 = fp.1 + (if piece.color = PieceColor.white then (-1 : Int) else 1)
      · rw [if_pos h3, if_pos h3]
        cases b.get_piece tp.1 tp.2 <;> rfl
      · rw [if_neg h3, if_neg h3]

theorem validate_knightS_eq (b : ChessBoard) (fp tp : Int × Int) :
    _validate_knightS b fp tp = (b._validate_knight fp tp, b) := rfl

theorem pathClearS_eq (tr tc rs cs : Int) (b : ChessBoard) :
    ∀ (fuel : Nat) (r c : Int),
      pathClearS tr tc rs cs b r c fuel = (pathClear b tr tc rs cs r c fuel, b) := by
  intro fuel
  induction fuel with
  | zero => intro r c; rfl
  | succ n ih =>
    intro r c
    simp only [pathClearS, pathClear, get_pieceS]
    by_cases h1 : r = tr ∧ c = tc
    · rw [if_pos h1, if_pos h1]
    · rw [if_neg h1, if_neg h1]
      by_cases h2 : (b.get_piece r c).isSome = true
      · rw [if_pos h2, if_pos h2]
      · rw [if_neg h2, if_neg h2, ih]

theorem validate_bishopS_eq (b : ChessBoard) (fp tp : Int × Int) :
    _validate_bishopS b fp tp = (b._validate_bishop fp tp, b) := by
  simp only [_validate_bishopS, ChessBoard._validate_bishop]
  by_cases h : (tp.1 - fp.1).natAbs ≠ (tp.2 - fp.2).natAbs
  · rw [if_pos h, if_pos h]
  · rw [if_neg h, if_neg h, pathClearS_eq]

theorem rowScanS_eq (fr : Int) (b : ChessBoard) :
    ∀ l : List Int,
      rowScanS fr b l = (l.all fun c => (b.get_piece fr c).isNone, b) := by
  intro l
  induction l with
  | nil => rfl
  | cons c rest ih =>
    simp only [rowScanS, get_pieceS, List.all_cons]
    cases hq : b.get_piece fr c <;> simp [hq, ih]

theorem colScanS_eq (fc : Int) (b : ChessBoard) :
    ∀ l : List Int,
      colScanS fc b l = (l.all fun r => (b.get_piece r fc).isNone, b) := by
  intro l
  induction l with
  | nil => rfl
  | cons r rest ih =>
    simp only [colScanS, get_pieceS, List.all_cons]
    cases hq : b.get_piece r fc <;> simp [hq, ih]

theorem validate_rookS_eq (b : ChessBoard) (fp tp : Int × Int) :
    _validate_rookS b fp tp = (b._validate_rook fp tp, b) := by
  simp only [_validate_rookS, ChessBoard._validate_rook]
  by_cases h1 : fp.1 ≠ tp.1 ∧ fp.2 ≠ tp.2
  · rw [if_pos h1, if_pos h1]
  · rw [if_neg h1, if_neg h1]
    by_cases h2 : fp.1 = tp.1
    · rw [if_pos h2, if_pos h2, rowScanS_eq]
    · rw [if_neg h2, if_neg h2, colScanS_eq]

theorem validate_queenS_eq (b : ChessBoard) (fp tp : Int × Int) :
    _validate_queenS b fp tp = (b._validate_queen fp tp, b) := by
  simp only [_validate_queenS, ChessBoard._validate_queen, validate_bishopS_eq]
  by_cases h : b._validate_bishop fp tp = true
  · simp [h]
  · simp [h, validate_rookS_eq]

theorem validate_kingS_eq (b : ChessBoard) (fp tp : Int × Int) :
    _validate_kingS b fp tp = (b._validate_king fp tp, b) := by
  simp only [_validate_kingS, ChessBoard._validate_king, get_pieceS]
  by_cases h1 : (tp.1 - fp.1).natAbs ≤ 1 ∧ (tp.2 - fp.2).natAbs ≤ 1
  · rw [if_pos h1, if_pos h1]
  · rw [if_neg h1, if_neg h1]
    cases hq : b.get_piece fp.1 fp.2
    · rfl
    rename_i piece
    simp only []
    by_cases h2 : piece.has_moved = false ∧ fp.1 = tp.1 ∧ (tp.2 - fp.2).natAbs = 2
    · rw [if_pos h2, if_pos h2]
      cases hr : b.get_piece fp.1 (if tp.2 < fp.2 then 0 else 7)
      · rfl
      rename_i rook
      simp only []
      by_cases h3 : rook.piece_type ≠ PieceType.rook ∨ rook.has_moved = true
      · rw [if_pos h3, if_pos h3]
      · rw [if_neg h3, if_neg h3, rowScanS_eq]
    · rw [if_neg h2, if_neg h2]

/-- C7: the legality checker is pure.  Re-running is_valid_move with the
    board state threaded explicitly through every read (is_valid_moveS, a
    statement-by-statement image of src/main.py lines 113-224) returns the
    same boolean together with the input board itself: a legality query
    performs no board mutation, for every board and every pair of raw
    integer coordinates. -/
theorem is_valid_move_pure :
    ∀ (b : ChessBoard) (fp tp : Int × Int),
      is_valid_moveS b fp tp = (b.is_valid_move fp tp, b) := by
  intro b fp tp
  simp only [is_valid_moveS, ChessBoard.is_valid_move, get_pieceS]
  cases hq : b.get_piece fp.1 fp.2
  · rfl
  rename_i piece
  simp only []
  cases ht : b.get_piece tp.1 tp.2 <;> simp only []
  · cases hk : piece.piece_type <;>
      simp [validate_pawnS_eq, validate_knightS_eq, validate_bishopS_eq,
        validate_rookS_eq, validate_queenS_eq, validate_kingS_eq]
  · rename_i t
    by_cases hc : t.color = piece.color
    · simp [hc]
    · cases hk : piece.piece_type <;>
        simp [hc, validate_pawnS_eq, validate_knightS_eq, validate_bishopS_eq,
          validate_rookS_eq, validate_queenS_eq, validate_kingS_eq]

/-- C2: isCheckmate(side) is true iff isInCheck(side) holds and
    allLegalMoves(side) is empty (definitionally, for every board and side),
    and the constructed corner mate — lone White king on (0,0), Black queen
    on (1,1) defended by the Black king on (2,2) — is checkmate for White
    with an empty legal-move list.  The checkmate layer is modelled from
    spec section 4.4 because src/main.py calls is_checkmate /
    get_all_valid_moves without defining them. -/
theorem is_checkmate_spec :
    (∀ (b : ChessBoard) (side : PieceColor),
        b.is_checkmate side =
          (b.is_in_check side && (b.get_all_valid_moves side).isEmpty)) ∧
    mateBoard.is_checkmate PieceColor.white = true ∧
    (mateBoard.get_all_valid_moves PieceColor.white).isEmpty = true :=
  ⟨fun b side => rfl, by decide, by decide⟩
